import Mathlib

/-!
Verification of the URL Uploader Telegram bot (`uploder.py`).

The development shallowly embeds the message/callback handlers, the two
pending maps, the URL classifier, the size formatter `humanbytes`, and the
download-then-upload pipeline `handle_download_or_upload`.  External
effects (HTTP responses, the extraction library, the chat client) are
passed in as explicit oracle values; the handlers themselves are embedded
as pure functions from the source.
-/

namespace UrlUploader

/-! ### Python string primitives used by the source -/

/-- Characters removed by Python `str.strip()` (ASCII whitespace). -/
def isPySpace (c : Char) : Bool :=
  c = ' ' || c = '\t' || c = '\n' || c = '\r' || c = '\x0b' || c = '\x0c'

/-- Python `text.strip()`: drop whitespace from both ends. -/
def pyStrip (s : String) : String :=
  String.mk (((s.toList.dropWhile isPySpace).reverse.dropWhile isPySpace).reverse)

/-- Python `str.lower()` (ASCII), character by character. -/
def pyLower (s : String) : String :=
  String.mk (s.toList.map Char.toLower)

/-- Python `s.startswith(p)`, stated through the list of characters so that
prefix facts are easy to reason about. -/
def startsWithL (p s : String) : Bool :=
  p.toList.isPrefixOf s.toList

/-- Match a literal followed by at least one character of a class, at the
start of the string.  This is the building block for `re.match` on the two
regular expressions of the source, which both have the shape
`literal  class+  (anything)`. -/
def litThen (p : String) (cls : Char → Bool) (s : String) : Bool :=
  p.toList.isPrefixOf s.toList &&
    (match s.toList.drop p.toList.length with
     | c :: _ => cls c
     | [] => false)

/-- Character class `[^\s<>"]` of `URL_REGEX`. -/
def urlBodyChar (c : Char) : Bool :=
  !(isPySpace c || c = '<' || c = '>' || c = '"')

/-- `re.match(URL_REGEX, s)` as a Boolean, for
`URL_REGEX = r'https?://[^\s<>"]+|www\.[^\s<>"]+'`. -/
def urlMatch (s : String) : Bool :=
  litThen "http://" urlBodyChar s || litThen "https://" urlBodyChar s ||
    litThen "www." urlBodyChar s

/-- Character class `[a-zA-Z0-9_-]` of `YOUTUBE_REGEX`. -/
def ytIdChar (c : Char) : Bool :=
  c.isAlpha || c.isDigit || c = '_' || c = '-'

/-- The literal heads generated by
`(?:https?://)?(?:www\.)?(?:youtube\.com/watch\?v=|youtu\.be/|youtube\.com/shorts/)`:
every combination of optional scheme, optional `www.` and one host form. -/
def ytHeads : List String :=
  ["", "http://", "https://"].flatMap (fun sch =>
    ["", "www."].flatMap (fun w =>
      ["youtube.com/watch?v=", "youtu.be/", "youtube.com/shorts/"].map (fun h =>
        sch ++ w ++ h)))

/-- `re.match(YOUTUBE_REGEX, s)` as a Boolean: some head followed by at
least one identifier character. -/
def youtubeMatch (s : String) : Bool :=
  ytHeads.any (fun h => litThen h ytIdChar s)

/-! ### The size formatter `humanbytes` -/

/-- The unit tuple `("B", "KB", "MB", "GB", "TB", "PB", "EB", "ZB", "YB")`. -/
def sizeName : List String := ["B", "KB", "MB", "GB", "TB", "PB", "EB", "ZB", "YB"]

/-- Round `num / den` to the nearest integer, ties to even: the rounding
rule of Python `round`. -/
def roundHalfEven (num den : Nat) : Nat :=
  if den < 2 * (num % den) then num / den + 1
  else if 2 * (num % den) < den then num / den
  else if (num / den) % 2 = 0 then num / den
  else num / den + 1

/-- Render a number of hundredths the way Python prints the rounded float
(`1.0`, `1.5`, `2.67`, `1.05`): at least one fractional digit, a trailing
zero in the second place dropped. -/
def fmtHundredths (h : Nat) : String :=
  let ip := h / 100
  let fp := h % 100
  if fp % 10 = 0 then toString ip ++ "." ++ toString (fp / 10)
  else if fp < 10 then toString ip ++ ".0" ++ toString fp
  else toString ip ++ "." ++ toString fp

/-- `humanbytes` of the source.  For a nonzero size the source computes
the unit index `i = int(math.floor(math.log(size_in_bytes, 1024)))` and
the displayed value `s = round(size_in_bytes / 1024**i, 2)` in IEEE-754
doubles; these two platform-dependent results enter the embedding as the
oracle arguments `fidx` and `fval` (the value in hundredths), the same way
the network responses do elsewhere in this development.  The rest of the
function is embedded directly: the zero shortcut, the tuple lookup
`size_name[i]` — `none` models the `IndexError` raised when the index is
past the nine entries — and the assembly of the result string.
`roundHalfEven` above is the exact reference value of `round(x, 2)`; the
statements relate `fval` to it under the hypothesis that the double
computation rounds exactly, and `Nat.log 1024` is the exact reference for
`fidx` in the same way. -/
def humanbytes (fidx fval : Nat) (n : Nat) : Option String :=
  if n = 0 then some "0 B"
  else
    match sizeName.get? fidx with
    | none => none
    | some unit => some (fmtHundredths fval ++ " " ++ unit)

/-! ### Dictionary operations (Python `dict` as an association list) -/

/-- `d.get(k)` / `k in d`. -/
def dlookup {α β : Type} [DecidableEq α] (k : α) : List (α × β) → Option β
  | [] => none
  | (k1, v) :: t => if k1 = k then some v else dlookup k t

/-- `d.pop(k, None)`: remove the binding of `k`. -/
def dpop {α β : Type} [DecidableEq α] (k : α) : List (α × β) → List (α × β)
  | [] => []
  | (k1, v) :: t => if k1 = k then dpop k t else (k1, v) :: dpop k t

/-- `d[k] = v`: bind `k` to `v`, replacing any previous binding. -/
def dinsert {α β : Type} [DecidableEq α] (k : α) (v : β) (m : List (α × β)) :
    List (α × β) :=
  (k, v) :: dpop k m

/-! ### The two pending maps and the handlers that mutate them -/

/-- The dictionary `{"url": ..., "type": ...}` stored in `pending_renames`. -/
structure RenameInfo where
  url : String
  rtype : String
deriving DecidableEq

/-- The process state: the maps `pending_downloads` (request id to URL) and
`pending_renames` (chat id to rename request), plus a ghost history
`submitted` of every URL text a user message has stored, used to state the
invariant of the store. -/
structure BotState where
  pending_downloads : List (String × String) := []
  pending_renames : List (Nat × RenameInfo) := []
  submitted : List String := []
deriving DecidableEq

def initState : BotState := {}

/-- The externally visible effect of `handle_message`, one constructor per
`return` path of the handler. -/
inductive MsgAction where
  | renameCancelled
  | renameYoutube (url filename : String)
  | renameDirect (url filename : String)
  | ignoredCommand
  | youtubeDownload (url : String)
  | urlError
  | tooLarge (size : Nat) (shown : String)
  | urlOptions (fileId : String) (buttons : List String)
  | invalidInput
deriving DecidableEq

/-- `handle_message` on a private text message.  `headSize` is the value
returned by `get_file_size` (0 on any HEAD failure); `filenameExn` is true
when the imported helper `get_filename` raises, which the source catches in
the `url_error` branch; `fidx` and `fval` are the double-precision results
of the `humanbytes(file_size)` call of the size check, passed through as
oracles. -/
def handleMessage (st : BotState) (chatId : Nat) (rawText : String)
    (freshId : String) (headSize : Nat) (filenameExn : Bool)
    (fidx fval : Nat) : BotState × MsgAction :=
  let text := pyStrip rawText
  match dlookup chatId st.pending_renames with
  | some info =>
      let st1 := { st with pending_renames := dpop chatId st.pending_renames }
      if pyLower text = "/cancel" then (st1, .renameCancelled)
      else if info.rtype = "youtube" then (st1, .renameYoutube info.url text)
      else (st1, .renameDirect info.url text)
  | none =>
      if startsWithL "/" text then (st, .ignoredCommand)
      else if youtubeMatch text then (st, .youtubeDownload text)
      else if urlMatch text then
        if filenameExn then (st, .urlError)
        else if headSize ≠ 0 ∧ 2 * 1024 * 1024 * 1024 < headSize then
          match humanbytes fidx fval headSize with
          | some h => (st, .tooLarge headSize h)
          | none => (st, .urlError)
        else
          ({ st with
              pending_downloads := dinsert freshId text st.pending_downloads,
              submitted := text :: st.submitted },
            .urlOptions freshId
              ["default|" ++ freshId, "rename|" ++ freshId, "cancel|" ++ freshId])
      else (st, .invalidInput)

/-- The externally visible effect of `callback_handler`. -/
inductive CbAction where
  | showStart
  | showHelp
  | showAbout
  | showSettings
  | closeMenu
  | expiredLink
  | quickDownload (url : String)
  | renamePrompt (url : String)
  | cancelled (fileId : String)
  | invalidButton
deriving DecidableEq

/-- Python `str.split(sep)` for a one-character separator, on the
character list. -/
def splitOnChar (sep : Char) : List Char → List (List Char)
  | [] => [[]]
  | c :: t =>
      if c = sep then [] :: splitOnChar sep t
      else
        match splitOnChar sep t with
        | [] => [[c]]
        | h :: r => (c :: h) :: r

/-- `data.split("|")[1]`. -/
def cbFileId (data : String) : String :=
  String.mk ((splitOnChar '|' data.toList).getD 1 [])

/-- `callback_handler`: dispatch on the callback data exactly in the order
of the source.  `if not url` in the source also treats an empty stored URL
as expired. -/
def handleCallback (st : BotState) (chatId : Nat) (data : String) :
    BotState × CbAction :=
  if data = "start" then (st, .showStart)
  else if data = "help" then (st, .showHelp)
  else if data = "about" then (st, .showAbout)
  else if data = "settings" then (st, .showSettings)
  else if data = "close" then (st, .closeMenu)
  else if startsWithL "default|" data then
    match dlookup (cbFileId data) st.pending_downloads with
    | none => (st, .expiredLink)
    | some url =>
        if url = "" then (st, .expiredLink) else (st, .quickDownload url)
  else if startsWithL "rename|" data then
    match dlookup (cbFileId data) st.pending_downloads with
    | none => (st, .expiredLink)
    | some url =>
        if url = "" then (st, .expiredLink)
        else
          ({ st with
              pending_renames := dinsert chatId ⟨url, "direct"⟩ st.pending_renames },
            .renamePrompt url)
  else if startsWithL "cancel|" data then
    ({ st with pending_downloads := dpop (cbFileId data) st.pending_downloads },
      .cancelled (cbFileId data))
  else (st, .invalidButton)

/-- One incoming update: a private text message or a callback press, with
the oracle values its handler consumes. -/
inductive Event where
  | msg (chatId : Nat) (rawText freshId : String) (headSize : Nat) (filenameExn : Bool)
      (fidx fval : Nat)
  | cb (chatId : Nat) (data : String)
deriving DecidableEq

def step (st : BotState) : Event → BotState
  | .msg c t f h e fi fv => (handleMessage st c t f h e fi fv).1
  | .cb c d => (handleCallback st c d).1

/-- The state after a sequence of updates, from the empty maps. -/
def run (events : List Event) : BotState :=
  events.foldl step initState

/-! ### The URL classifier -/

inductive Route where
  | youtube
  | direct
  | invalid
deriving DecidableEq

/-- The classification order of `handle_message`: the YouTube pattern is
tried first, then the general URL pattern, otherwise the input is
invalid. -/
def classifyUrl (text : String) : Route :=
  if youtubeMatch text then .youtube
  else if urlMatch text then .direct
  else .invalid

/-- Which of the three routes a `handle_message` effect belongs to:
everything produced inside the direct-URL branch (the size rejection, the
helper failure and the option keyboard) counts as the direct route. -/
def msgRoute : MsgAction → Option Route
  | .youtubeDownload _ => some .youtube
  | .urlError => some .direct
  | .tooLarge _ _ => some .direct
  | .urlOptions _ _ => some .direct
  | .invalidInput => some .invalid
  | _ => none

/-! ### The transfer pipeline `handle_download_or_upload` -/

/-- Python `needle in hay`. -/
def containsSub (needle hay : String) : Bool :=
  (List.range (hay.toList.length + 1)).any
    (fun i => needle.toList.isPrefixOf (hay.toList.drop i))

/-- The branch test of `handle_download_or_upload`:
`"youtube.com" in url or "youtu.be" in url`. -/
def isYtUrl (url : String) : Bool :=
  containsSub "youtube.com" url || containsSub "youtu.be" url

def videoExts : List String := [".mp4", ".avi", ".mkv", ".mov", ".webm"]

def audioExts : List String := [".mp3", ".wav", ".flac", ".ogg"]

/-- `os.path.splitext(path)[1]`: the extension of the basename, where
leading dots of the basename do not start an extension. -/
def splitextExt (path : String) : String :=
  let base := (splitOnChar '/' path.toList).getLastD []
  let rest := base.dropWhile (· = '.')
  if rest.any (· = '.') then
    String.mk ('.' :: (rest.reverse.takeWhile (· ≠ '.')).reverse)
  else ""

/-- How `handle_download_or_upload` sends the file: `send_video` for video
extensions, `send_audio` for audio extensions, otherwise the generic
document path `send_file_with_thumbnail`. -/
inductive UploadMethod where
  | video
  | audio
  | documentThumb
deriving DecidableEq

def chooseUploadMethod (path : String) : UploadMethod :=
  let ext := pyLower (splitextExt path)
  if ext ∈ videoExts then .video
  else if ext ∈ audioExts then .audio
  else .documentThumb

/-- Outcome of the direct download `download_file`, one constructor per
exit of the source; `chunks` counts the received chunks, each of which
triggers a progress update. -/
inductive DlOutcome where
  | ok (path : String) (chunks : Nat)
  | badStatus (code : Nat)
  | incomplete (got want : Nat) (chunks : Nat)
  | netError (msg : String) (chunks : Nat)
  | exn (msg : String) (chunks : Nat)
deriving DecidableEq

/-- Outcome of the YouTube download `download_youtube`: extraction
succeeded, extraction produced no info, or the library raised. -/
inductive YtOutcome where
  | ok (path : String) (chunks : Nat)
  | noInfo (chunks : Nat)
  | ytError (msg : String) (chunks : Nat)
deriving DecidableEq

/-- Outcome of the `client.send_*` upload call. -/
inductive UlOutcome where
  | ok (chunks : Nat)
  | sendError (msg : String) (chunks : Nat)
deriving DecidableEq

/-- Observable events of one run of `handle_download_or_upload`, in
order. -/
inductive TEvent where
  | preparing
  | dlStart
  | dlProgress (k : Nat)
  | noteShown (s : String)
  | errorShown (s : String)
  | logged (s : String)
  | fileRemoved
  | uploadStart
  | ulProgress (k : Nat)
  | uploaded (m : UploadMethod) (path : String)
  | progressDeleted
deriving DecidableEq

def dlProgEvents (c : Nat) : List TEvent :=
  (List.range c).map .dlProgress

def ulProgEvents (c : Nat) : List TEvent :=
  (List.range c).map .ulProgress

/-- The events and result of `download_file` (direct URL): a bad HTTP
status or an incomplete size check only shows an error, the network and
generic exception handlers also log it. -/
def directPhase : DlOutcome → List TEvent × Option String
  | .ok p c => (.dlStart :: dlProgEvents c, some p)
  | .badStatus code =>
      ([.dlStart, .errorShown ("Download Failed: HTTP " ++ toString code)], none)
  | .incomplete got want c =>
      (.dlStart :: dlProgEvents c ++
        [.errorShown ("Incomplete Download: " ++ toString got ++ "/" ++ toString want),
          .fileRemoved], none)
  | .netError m c =>
      (.dlStart :: dlProgEvents c ++
        [.logged ("Network Download Error: " ++ m),
          .errorShown ("Network Error: " ++ m)], none)
  | .exn m c =>
      (.dlStart :: dlProgEvents c ++
        [.logged ("Direct Download Error: " ++ m),
          .errorShown ("Download Failed: " ++ m)], none)

/-- The specialised error text of `download_youtube` for an extraction
failure. -/
def ytErrText (m : String) : String :=
  if containsSub "Private video" m then "Download Failed: Private video"
  else if containsSub "Unavailable video" m then "Download Failed: Video unavailable"
  else if containsSub "Geoblocked" m then "Download Failed: Video geoblocked"
  else "YouTube Download Failed: " ++ m

/-- The events and result of `download_youtube`: the missing-info branch
shows an error without logging, the exception branch logs then shows the
specialised text, and success edits a completion note. -/
def ytPhase : YtOutcome → List TEvent × Option String
  | .ok p c =>
      (.dlStart :: dlProgEvents c ++ [.noteShown ("Download Complete: " ++ p)], some p)
  | .noInfo c =>
      (.dlStart :: dlProgEvents c ++
        [.errorShown "YouTube Download Failed: Unable to extract video info"], none)
  | .ytError m c =>
      (.dlStart :: dlProgEvents c ++
        [.logged ("YouTube Download Error: " ++ m), .errorShown (ytErrText m)], none)

/-- The oracle values one run of `handle_download_or_upload` consumes:
the download outcome of whichever branch runs, whether the returned path
exists on disk, and the upload outcome. -/
structure TransferOracle where
  direct : DlOutcome
  yt : YtOutcome
  fileOnDisk : Bool
  upload : UlOutcome
deriving DecidableEq

/-- The download phase chosen by the URL: the YouTube library for URLs
containing `youtube.com` or `youtu.be`, the direct HTTP download
otherwise. -/
def dlPhase (url : String) (o : TransferOracle) : List TEvent × Option String :=
  if isYtUrl url then ytPhase o.yt else directPhase o.direct

/-- The result of the download phase chosen by the URL. -/
def downloadResult (url : String) (o : TransferOracle) : Option String :=
  (dlPhase url o).2

/-- `handle_download_or_upload`: one sequential pass.  The download phase
runs first; a `None` result or a missing file shows an error and returns
`None`; otherwise the upload phase runs, and on success the progress
message and the local file are removed and the path is returned. -/
def transfer (url : String) (o : TransferOracle) : List TEvent × Option String :=
  let dl := dlPhase url o
  let head := TEvent.preparing :: dl.1
  match dl.2 with
  | none =>
      (head ++ [.errorShown "Download Failed: Unable to download file"], none)
  | some path =>
      if o.fileOnDisk then
        match o.upload with
        | .ok c =>
            (head ++ .uploadStart :: ulProgEvents c ++
              [.uploaded (chooseUploadMethod path) path, .progressDeleted,
                .fileRemoved], some path)
        | .sendError m c =>
            (head ++ .uploadStart :: ulProgEvents c ++
              [.logged ("File Send Error: " ++ m),
                .errorShown ("Upload Failed: " ++ m)], none)
      else
        (head ++ [.errorShown "Download Failed: Unable to download file"], none)

/-! ### Thumbnail store -/

/-- Modelled from the spec: `send_file_with_thumbnail` and the thumbnail
set/get/delete operations are called by `uploder.py` but their definitions
are not among the sources.  Per the spec the store keeps, for each user, a
single JPEG thumbnail file on disk with set, get and delete operations. -/
structure ThumbStore where
  thumbs : List (Nat × String) := []
deriving DecidableEq

/-- Modelled from the spec: set the (single) thumbnail of a user. -/
def setThumb (u : Nat) (f : String) (s : ThumbStore) : ThumbStore :=
  ⟨dinsert u f s.thumbs⟩

/-- Modelled from the spec: get the thumbnail of a user. -/
def getThumb (u : Nat) (s : ThumbStore) : Option String :=
  dlookup u s.thumbs

/-- Modelled from the spec: delete the thumbnail of a user. -/
def delThumb (u : Nat) (s : ThumbStore) : ThumbStore :=
  ⟨dpop u s.thumbs⟩

/-! ### Remaining definitions used by the statements -/

/-- Every URL held in `pending_downloads` is the (stripped) text of an
earlier accepted URL message, and every `pending_renames` entry carries
such a URL. -/
def Inv (st : BotState) : Prop :=
  (∀ p ∈ st.pending_downloads, p.2 ∈ st.submitted ∧ urlMatch p.2 = true) ∧
  (∀ q ∈ st.pending_renames, q.2.url ∈ st.submitted ∧ urlMatch q.2.url = true)

/-- Pairwise distinct request identifiers for the growth trace. -/
def growId (j : Nat) : String :=
  String.mk (List.replicate j 'a')

/-- A trace of `n` accepted direct-URL messages, each with a fresh request
identifier and no cancel callback. -/
def growEvents (n : Nat) : List Event :=
  (List.range n).map (fun j => Event.msg 0 "http://example.com/file.bin" (growId j) 0 false 0 0)

/-- A sample state with one pending download, used by the witnesses. -/
def sampleState : BotState :=
  { pending_downloads := [("k", "http://a.b/c")],
    pending_renames := [],
    submitted := ["http://a.b/c"] }

/-- Recognizers for transfer events, used to state phase separation and
counting properties. -/
def isDownloadEvent : TEvent → Bool
  | .dlStart => true
  | .dlProgress _ => true
  | _ => false

def isUploadEvent : TEvent → Bool
  | .uploadStart => true
  | .ulProgress _ => true
  | .uploaded _ _ => true
  | _ => false

def isLoggedEvent : TEvent → Bool
  | .logged _ => true
  | _ => false

def isErrorShownEvent : TEvent → Bool
  | .errorShown _ => true
  | _ => false

def isPreparingEvent : TEvent → Bool
  | .preparing => true
  | _ => false

def isDlStartEvent : TEvent → Bool
  | .dlStart => true
  | _ => false

def isUploadStartEvent : TEvent → Bool
  | .uploadStart => true
  | _ => false

def isDlProgressEvent : TEvent → Bool
  | .dlProgress _ => true
  | _ => false

def isUlProgressEvent : TEvent → Bool
  | .ulProgress _ => true
  | _ => false

/-- Reporting events: message edits and file cleanup emitted after the
data transfer of a phase. -/
def isReportEvent : TEvent → Bool
  | .noteShown _ => true
  | .errorShown _ => true
  | .logged _ => true
  | .fileRemoved => true
  | _ => false

/-- Chunk counts of the download oracle outcomes. -/
def dlChunks : DlOutcome → Nat
  | .ok _ c => c
  | .badStatus _ => 0
  | .incomplete _ _ c => c
  | .netError _ c => c
  | .exn _ c => c

def ytChunks : YtOutcome → Nat
  | .ok _ c => c
  | .noInfo c => c
  | .ytError _ c => c

def ulChunks : UlOutcome → Nat
  | .ok c => c
  | .sendError _ c => c

/-- Whether the chosen download phase succeeded with the given path. -/
def dlOk (url : String) (o : TransferOracle) : Bool :=
  (downloadResult url o).isSome

/-- A transfer oracle for a fully successful run, used by witnesses. -/
def okOracle : TransferOracle :=
  { direct := .ok "downloads/file.bin" 3,
    yt := .ok "downloads/video.mp4" 3,
    fileOnDisk := true,
    upload := .ok 2 }

/-- A transfer oracle whose direct download fails with an HTTP status. -/
def badStatusOracle : TransferOracle :=
  { direct := .badStatus 404,
    yt := .noInfo 0,
    fileOnDisk := false,
    upload := .ok 0 }

/-! ### Lemmas about the dictionary operations -/

theorem mem_dpop {α β : Type} [DecidableEq α] {p : α × β} {k : α}
    {m : List (α × β)} (h : p ∈ dpop k m) : p ∈ m := by
  induction m with
  | nil => simp [dpop] at h
  | cons q t ih =>
      obtain ⟨k1, v1⟩ := q
      by_cases hk : k1 = k
      · simp only [dpop, if_pos hk] at h
        exact List.mem_cons_of_mem _ (ih h)
      · simp only [dpop, if_neg hk, List.mem_cons] at h
        rcases h with h | h
        · exact h ▸ List.mem_cons_self _ _
        · exact List.mem_cons_of_mem _ (ih h)

theorem mem_dinsert {α β : Type} [DecidableEq α] {p : α × β} {k : α} {v : β}
    {m : List (α × β)} (h : p ∈ dinsert k v m) : p = (k, v) ∨ p ∈ m := by
  simp only [dinsert, List.mem_cons] at h
  rcases h with h | h
  · exact Or.inl h
  · exact Or.inr (mem_dpop h)

theorem dlookup_dpop {α β : Type} [DecidableEq α] (k j : α) (m : List (α × β)) :
    dlookup j (dpop k m) = if j = k then none else dlookup j m := by
  induction m with
  | nil => simp [dpop, dlookup]
  | cons q t ih =>
      obtain ⟨k1, v1⟩ := q
      by_cases hk : k1 = k
      · subst hk
        by_cases hj : k1 = j
        · subst hj; simp [dpop, dlookup, ih]
        · simp [dpop, dlookup, hj, ih]
      · simp only [dpop, if_neg hk, dlookup]
        by_cases hj : k1 = j
        · subst hj
          have : ¬ k1 = k := hk
          simp [dlookup, fun h : k1 = k => hk h, if_neg (by intro h; exact hk h)]
        · simp [dlookup, hj, ih]

theorem dlookup_dinsert {α β : Type} [DecidableEq α] (k j : α) (v : β)
    (m : List (α × β)) :
    dlookup j (dinsert k v m) = if k = j then some v else dlookup j m := by
  by_cases h : k = j
  · subst h; simp [dinsert, dlookup]
  · simp only [dinsert, dlookup, if_neg h, dlookup_dpop]
    rw [if_neg (by intro hj; exact h hj.symm)]

theorem dpop_of_dlookup_none {α β : Type} [DecidableEq α] {k : α}
    {m : List (α × β)} (h : dlookup k m = none) : dpop k m = m := by
  induction m with
  | nil => simp [dpop]
  | cons q t ih =>
      obtain ⟨k1, v1⟩ := q
      by_cases hk : k1 = k
      · subst hk; simp [dlookup] at h
      · simp only [dlookup, if_neg hk] at h
        simp [dpop, hk, ih h]

theorem dlookup_mem {α β : Type} [DecidableEq α] {k : α} {v : β}
    {m : List (α × β)} (h : dlookup k m = some v) : (k, v) ∈ m := by
  induction m with
  | nil => simp [dlookup] at h
  | cons q t ih =>
      obtain ⟨k1, v1⟩ := q
      by_cases hk : k1 = k
      · subst hk
        simp [dlookup] at h
        subst h
        exact List.mem_cons_self _ _
      · simp only [dlookup, if_neg hk] at h
        exact List.mem_cons_of_mem _ (ih h)

/-! ### The store invariant (claim C3) -/

theorem inv_step (st : BotState) (e : Event) (h : Inv st) : Inv (step st e) := by
  obtain ⟨hd, hr⟩ := h
  cases e with
  | msg c t f hs fe fidx fval =>
      cases hre : dlookup c st.pending_renames with
      | some info =>
          have base : Inv { st with pending_renames := dpop c st.pending_renames } :=
            ⟨hd, fun q hq => hr q (mem_dpop hq)⟩
          simp only [step, handleMessage, hre]
          split
          · exact base
          · split
            · exact base
            · exact base
      | none =>
          simp only [step, handleMessage, hre]
          split
          · exact ⟨hd, hr⟩
          · split
            · exact ⟨hd, hr⟩
            · split
              · split
                · exact ⟨hd, hr⟩
                · split
                  · split
                    · exact ⟨hd, hr⟩
                    · exact ⟨hd, hr⟩
                  · rename_i hurl _ _
                    refine ⟨fun p hp => ?_, fun q hq => ?_⟩
                    · rcases mem_dinsert hp with hp | hp
                      · subst hp
                        exact ⟨List.mem_cons_self _ _, hurl⟩
                      · obtain ⟨h1, h2⟩ := hd p hp
                        exact ⟨List.mem_cons_of_mem _ h1, h2⟩
                    · obtain ⟨h1, h2⟩ := hr q hq
                      exact ⟨List.mem_cons_of_mem _ h1, h2⟩
              · exact ⟨hd, hr⟩
  | cb c d =>
      simp only [step, handleCallback]
      split
      · exact ⟨hd, hr⟩
      · split
        · exact ⟨hd, hr⟩
        · split
          · exact ⟨hd, hr⟩
          · split
            · exact ⟨hd, hr⟩
            · split
              · exact ⟨hd, hr⟩
              · split
                · split
                  · exact ⟨hd, hr⟩
                  · split
                    · exact ⟨hd, hr⟩
                    · exact ⟨hd, hr⟩
                · split
                  · split
                    · exact ⟨hd, hr⟩
                    · split
                      · exact ⟨hd, hr⟩
                      · rename_i hlook _
                        refine ⟨hd, fun q hq => ?_⟩
                        rcases mem_dinsert hq with hq | hq
                        · subst hq
                          exact hd _ (dlookup_mem hlook)
                        · exact hr q hq
                  · split
                    · exact ⟨fun p hp => hd p (mem_dpop hp), hr⟩
                    · exact ⟨hd, hr⟩

/-- C3: for every reachable state of the bot, every key of
`pending_downloads` maps to a URL string that an earlier processed message
stored (it is in the submitted history and matches the URL pattern), and
every chat key of `pending_renames` carries such a previously submitted
URL. -/
theorem c3_pending_invariant (events : List Event) : Inv (run events) := by
  suffices h : ∀ (l : List Event) (st : BotState), Inv st → Inv (l.foldl step st) by
    refine h events initState ⟨?_, ?_⟩
    · intro p hp
      simp [initState] at hp
    · intro q hq
      simp [initState] at hq
  intro l
  induction l with
  | nil => exact fun st h => h
  | cons e t ih => exact fun st h => ih _ (inv_step st e h)

/-! ### Claim C1: the classifier order -/

/-- C1: for every private text message that is not a reply to a pending
rename and whose stripped text does not start with `/`, `handle_message`
routes it to exactly one of the three outcomes, determined by the regex
matches in a fixed order: the YouTube route exactly when the YouTube
pattern matches, the direct route exactly when the YouTube pattern fails
and the URL pattern matches, and the invalid-input reply exactly when both
fail; in particular the YouTube match takes precedence. -/
theorem c1_classifier_order (st : BotState) (chat : Nat) (t fid : String)
    (hs : Nat) (fe : Bool) (fidx fval : Nat)
    (hnr : dlookup chat st.pending_renames = none)
    (hnc : startsWithL "/" (pyStrip t) = false) :
    msgRoute (handleMessage st chat t fid hs fe fidx fval).2 = some (classifyUrl (pyStrip t)) ∧
    (classifyUrl (pyStrip t) = Route.youtube ↔ youtubeMatch (pyStrip t) = true) ∧
    (classifyUrl (pyStrip t) = Route.direct ↔
      youtubeMatch (pyStrip t) = false ∧ urlMatch (pyStrip t) = true) ∧
    (classifyUrl (pyStrip t) = Route.invalid ↔
      youtubeMatch (pyStrip t) = false ∧ urlMatch (pyStrip t) = false) := by
  refine ⟨?_, ?_, ?_, ?_⟩
  · simp only [handleMessage, hnr, hnc, Bool.false_eq_true, if_false]
    unfold classifyUrl
    cases hyt : youtubeMatch (pyStrip t) with
    | true => simp [msgRoute]
    | false =>
        simp only [Bool.false_eq_true, if_false]
        cases hurl : urlMatch (pyStrip t) with
        | true =>
            simp only [if_true]
            (repeat' split) <;> rfl
        | false => simp [msgRoute]
  · unfold classifyUrl
    cases hyt : youtubeMatch (pyStrip t) <;> cases hurl : urlMatch (pyStrip t) <;> simp
  · unfold classifyUrl
    cases hyt : youtubeMatch (pyStrip t) <;> cases hurl : urlMatch (pyStrip t) <;> simp
  · unfold classifyUrl
    cases hyt : youtubeMatch (pyStrip t) <;> cases hurl : urlMatch (pyStrip t) <;> simp

/-- Witness for C1 at a concrete YouTube link. -/
theorem c1_classifier_order_witness :
    msgRoute (handleMessage initState 0 "https://youtu.be/dQw4" "x" 0 false 0 0).2 =
      some Route.youtube := by
  have h := c1_classifier_order initState 0 "https://youtu.be/dQw4" "x" 0 false 0 0 rfl (by decide)
  rw [h.1]
  decide

/-! ### Claim C4: no expiry -/

theorem startsWith_ne {p d s : String} (hp : startsWithL p d = true)
    (hs : startsWithL p s = false) : d ≠ s := by
  intro h
  subst h
  rw [hp] at hs
  cases hs

theorem handleMessage_pd_isSome (st : BotState) (c : Nat) (t f : String)
    (hs : Nat) (fe : Bool) (fidx fval : Nat) (k : String)
    (h : (dlookup k st.pending_downloads).isSome = true) :
    (dlookup k (handleMessage st c t f hs fe fidx fval).1.pending_downloads).isSome = true := by
  cases hre : dlookup c st.pending_renames with
  | some info =>
      simp only [handleMessage, hre]
      split
      · exact h
      · split
        · exact h
        · exact h
  | none =>
      simp only [handleMessage, hre]
      (repeat' split) <;> (try exact h)
      rw [dlookup_dinsert]
      split
      · rfl
      · exact h

theorem handleCallback_pd_remove (st : BotState) (c : Nat) (d k : String)
    (h1 : (dlookup k st.pending_downloads).isSome = true)
    (h2 : (dlookup k (handleCallback st c d).1.pending_downloads).isSome = false) :
    startsWithL "cancel|" d = true ∧ cbFileId d = k := by
  revert h2
  simp only [handleCallback]
  (repeat' split) <;> intro h2 <;> (try exact absurd h1 (by rw [h2]; decide))
  · rename_i hcan
    rw [dlookup_dpop] at h2
    by_cases hk : k = cbFileId d
    · exact ⟨hcan, hk.symm⟩
    · rw [if_neg hk] at h2
      rw [h2] at h1
      cases h1

theorem handleCallback_pr_isSome (st : BotState) (c : Nat) (d : String) (k : Nat)
    (h : (dlookup k st.pending_renames).isSome = true) :
    (dlookup k (handleCallback st c d).1.pending_renames).isSome = true := by
  simp only [handleCallback]
  (repeat' split) <;> (try exact h)
  rw [dlookup_dinsert]
  split
  · rfl
  · exact h

theorem handleMessage_pr_remove (st : BotState) (c : Nat) (t f : String)
    (hs : Nat) (fe : Bool) (fidx fval : Nat) (k : Nat)
    (h1 : (dlookup k st.pending_renames).isSome = true)
    (h2 : (dlookup k (handleMessage st c t f hs fe fidx fval).1.pending_renames).isSome = false) :
    k = c ∧ (dlookup c st.pending_renames).isSome = true := by
  revert h2
  cases hre : dlookup c st.pending_renames with
  | some info =>
      simp only [handleMessage, hre]
      (repeat' split) <;> intro h2 <;>
        (first
          | · rw [dlookup_dpop] at h2
              by_cases hk : k = c
              · exact ⟨hk, rfl⟩
              · rw [if_neg hk] at h2
                rw [h2] at h1
                cases h1)
  | none =>
      simp only [handleMessage, hre]
      (repeat' split) <;> intro h2 <;> exact absurd h1 (by rw [h2]; decide)

theorem grow_aux (n : Nat) :
    (run (growEvents n)).pending_renames = [] ∧
    (∀ j, n ≤ j → dlookup (growId j) (run (growEvents n)).pending_downloads = none) ∧
    (run (growEvents n)).pending_downloads.length = n := by
  induction n with
  | zero => exact ⟨rfl, fun j hj => rfl, rfl⟩
  | succ n ih =>
      obtain ⟨h1, h2, h3⟩ := ih
      have hrun : run (growEvents (n + 1)) =
          step (run (growEvents n))
            (Event.msg 0 "http://example.com/file.bin" (growId n) 0 false 0 0) := by
        simp [run, growEvents, List.range_succ]
      have hlook : dlookup 0 (run (growEvents n)).pending_renames = none := by
        rw [h1]
        rfl
      have e1 : pyStrip "http://example.com/file.bin" = "http://example.com/file.bin" := by
        decide
      have e2 : startsWithL "/" "http://example.com/file.bin" = false := by decide
      have e3 : youtubeMatch "http://example.com/file.bin" = false := by decide
      have e4 : urlMatch "http://example.com/file.bin" = true := by decide
      have hstep : step (run (growEvents n))
          (Event.msg 0 "http://example.com/file.bin" (growId n) 0 false 0 0) =
          { run (growEvents n) with
              pending_downloads :=
                dinsert (growId n) "http://example.com/file.bin"
                  (run (growEvents n)).pending_downloads,
              submitted := "http://example.com/file.bin" :: (run (growEvents n)).submitted } := by
        simp only [step, handleMessage, hlook, e1, e2, e3, e4, Bool.false_eq_true,
          if_false, if_true]
        norm_num
      have hne : ∀ j, n + 1 ≤ j → growId n ≠ growId j := by
        intro j hj heq
        have hlen := congrArg (fun s => s.data.length) heq
        simp [growId] at hlen
        omega
      refine ⟨?_, ?_, ?_⟩
      · rw [hrun, hstep]
        exact h1
      · intro j hj
        rw [hrun, hstep]
        simp only
        rw [dlookup_dinsert, if_neg (hne j hj)]
        exact h2 j (by omega)
      · rw [hrun, hstep]
        simp only [dinsert, List.length_cons]
        rw [dpop_of_dlookup_none (h2 n (le_refl n)), h3]

/-- C4: no entry of the two pending maps ever expires.  The quick-download
callback leaves the state (and hence the `pending_downloads` entry)
unchanged; a message never drops a `pending_downloads` key; the only
callback that drops a `pending_downloads` key is a `cancel|` press naming
that key; a callback never drops a `pending_renames` key; the only way a
`pending_renames` key disappears is a message in that chat consuming or
cancelling the rename; and the trace of `n` accepted URL messages leaves
`n` live entries, so the map grows without bound over the bot lifetime. -/
theorem c4_no_expiry :
    (∀ (st : BotState) (chat : Nat) (data : String),
        startsWithL "default|" data = true → (handleCallback st chat data).1 = st) ∧
    (∀ (st : BotState) (chat : Nat) (t fid : String) (hs : Nat) (fe : Bool)
        (fidx fval : Nat) (k : String),
        (dlookup k st.pending_downloads).isSome = true →
        (dlookup k (handleMessage st chat t fid hs fe fidx fval).1.pending_downloads).isSome = true) ∧
    (∀ (st : BotState) (chat : Nat) (data k : String),
        (dlookup k st.pending_downloads).isSome = true →
        (dlookup k (handleCallback st chat data).1.pending_downloads).isSome = false →
        startsWithL "cancel|" data = true ∧ cbFileId data = k) ∧
    (∀ (st : BotState) (chat : Nat) (data : String) (k : Nat),
        (dlookup k st.pending_renames).isSome = true →
        (dlookup k (handleCallback st chat data).1.pending_renames).isSome = true) ∧
    (∀ (st : BotState) (chat : Nat) (t fid : String) (hs : Nat) (fe : Bool)
        (fidx fval : Nat) (k : Nat),
        (dlookup k st.pending_renames).isSome = true →
        (dlookup k (handleMessage st chat t fid hs fe fidx fval).1.pending_renames).isSome = false →
        k = chat ∧ (dlookup chat st.pending_renames).isSome = true) ∧
    (∀ n : Nat, ((run (growEvents n)).pending_downloads).length = n) := by
  refine ⟨?_, handleMessage_pd_isSome, handleCallback_pd_remove,
    handleCallback_pr_isSome, handleMessage_pr_remove, fun n => (grow_aux n).2.2⟩
  intro st chat data hdef
  have n1 : data ≠ "start" := startsWith_ne hdef (by decide)
  have n2 : data ≠ "help" := startsWith_ne hdef (by decide)
  have n3 : data ≠ "about" := startsWith_ne hdef (by decide)
  have n4 : data ≠ "settings" := startsWith_ne hdef (by decide)
  have n5 : data ≠ "close" := startsWith_ne hdef (by decide)
  simp only [handleCallback, if_neg n1, if_neg n2, if_neg n3, if_neg n4, if_neg n5,
    hdef, if_true]
  split
  · rfl
  · split
    · rfl
    · rfl

/-- Witness for C4: the quick-download press leaves the sample entry in
place, and three accepted URL messages leave three live entries. -/
theorem c4_no_expiry_witness :
    (handleCallback sampleState 0 "default|k").1 = sampleState ∧
    (dlookup "k" (handleMessage sampleState 0 "hello" "f" 0 false 0 0).1.pending_downloads).isSome
      = true ∧
    ((run (growEvents 3)).pending_downloads).length = 3 :=
  ⟨c4_no_expiry.1 sampleState 0 "default|k" (by decide),
    c4_no_expiry.2.1 sampleState 0 "hello" "f" 0 false 0 0 "k" (by decide),
    c4_no_expiry.2.2.2.2.2 3⟩

/-! ### Claim C5: the pending-download choice protocol -/

theorem isPrefixOf_or {l1 l2 d : List Char} (h1 : l1.isPrefixOf d = true)
    (h2 : l2.isPrefixOf d = true) :
    l1.isPrefixOf l2 = true ∨ l2.isPrefixOf l1 = true := by
  induction d generalizing l1 l2 with
  | nil =>
      cases l1 with
      | nil => exact Or.inl (by cases l2 <;> rfl)
      | cons x xs => simp [List.isPrefixOf] at h1
  | cons a d ih =>
      cases l1 with
      | nil => exact Or.inl (by cases l2 <;> rfl)
      | cons x xs =>
          cases l2 with
          | nil => exact Or.inr rfl
          | cons y ys =>
              simp only [List.isPrefixOf, Bool.and_eq_true, beq_iff_eq] at h1 h2 ⊢
              obtain ⟨hx, h1⟩ := h1
              obtain ⟨hy, h2⟩ := h2
              subst hx
              subst hy
              rcases ih h1 h2 with h | h
              · exact Or.inl ⟨rfl, h⟩
              · exact Or.inr ⟨rfl, h⟩

theorem startsWithL_excl {p q d : String}
    (hpq : (p.toList.isPrefixOf q.toList || q.toList.isPrefixOf p.toList) = false)
    (hp : startsWithL p d = true) : startsWithL q d = false := by
  by_contra hq
  rw [Bool.not_eq_false] at hq
  rcases isPrefixOf_or hp hq with h | h
  · rw [h] at hpq
    simp at hpq
  · rw [h] at hpq
    simp at hpq

/-- C5 counterexample: the claim says any callback data other than the
three download follow-ups is answered as an invalid button and a stale
choice is answered as expired; but the menu datum `help` is answered with
the help menu, and a stale `cancel|` press is silently executed rather
than answered as expired. -/
theorem c5_menu_counterexample :
    (handleCallback initState 0 "help").2 = CbAction.showHelp ∧
    CbAction.showHelp ≠ CbAction.invalidButton ∧
    (handleCallback initState 0 "cancel|zz").2 = CbAction.cancelled "zz" ∧
    CbAction.cancelled "zz" ≠ CbAction.expiredLink := by
  refine ⟨rfl, by decide, ?_, by decide⟩
  rfl

/-- C5 (amended): a pending download is stored under the generated request
identifier and offered exactly the three follow-ups `default|id`,
`rename|id`, `cancel|id`; `default|` and `rename|` with a known identifier
perform the quick download and the rename prompt, with an unknown
identifier they are answered as an expired link; `cancel|` removes the
entry (silently, even when the identifier is unknown); and callback data
that is none of these and none of the five menu entries is answered as an
invalid button. -/
theorem c5_download_choice_protocol :
    (∀ (st : BotState) (chat : Nat) (t fid : String) (hs : Nat) (fe : Bool)
        (fidx fval : Nat) (f : String) (btns : List String),
        (handleMessage st chat t fid hs fe fidx fval).2 = MsgAction.urlOptions f btns →
        f = fid ∧ btns = ["default|" ++ fid, "rename|" ++ fid, "cancel|" ++ fid] ∧
        dlookup fid (handleMessage st chat t fid hs fe fidx fval).1.pending_downloads
          = some (pyStrip t)) ∧
    (∀ (st : BotState) (chat : Nat) (data : String),
        startsWithL "default|" data = true →
        dlookup (cbFileId data) st.pending_downloads = none →
        (handleCallback st chat data).2 = CbAction.expiredLink) ∧
    (∀ (st : BotState) (chat : Nat) (data url : String),
        startsWithL "default|" data = true →
        dlookup (cbFileId data) st.pending_downloads = some url → url ≠ "" →
        (handleCallback st chat data).2 = CbAction.quickDownload url) ∧
    (∀ (st : BotState) (chat : Nat) (data : String),
        startsWithL "rename|" data = true →
        dlookup (cbFileId data) st.pending_downloads = none →
        (handleCallback st chat data).2 = CbAction.expiredLink) ∧
    (∀ (st : BotState) (chat : Nat) (data url : String),
        startsWithL "rename|" data = true →
        dlookup (cbFileId data) st.pending_downloads = some url → url ≠ "" →
        (handleCallback st chat data).2 = CbAction.renamePrompt url ∧
        dlookup chat (handleCallback st chat data).1.pending_renames
          = some ⟨url, "direct"⟩) ∧
    (∀ (st : BotState) (chat : Nat) (data : String),
        startsWithL "cancel|" data = true →
        (handleCallback st chat data).2 = CbAction.cancelled (cbFileId data) ∧
        dlookup (cbFileId data) (handleCallback st chat data).1.pending_downloads
          = none) ∧
    (∀ (st : BotState) (chat : Nat) (data : String),
        data ≠ "start" → data ≠ "help" → data ≠ "about" →
        data ≠ "settings" → data ≠ "close" →
        startsWithL "default|" data = false → startsWithL "rename|" data = false →
        startsWithL "cancel|" data = false →
        (handleCallback st chat data).2 = CbAction.invalidButton) := by
  refine ⟨?_, ?_, ?_, ?_, ?_, ?_, ?_⟩
  · intro st chat t fid hs fe fidx fval f btns heq
    revert heq
    cases hre : dlookup chat st.pending_renames with
    | some info =>
        simp only [handleMessage, hre]
        (repeat' split) <;> intro heq <;> cases heq
    | none =>
        simp only [handleMessage, hre]
        (repeat' split) <;> intro heq <;> (try cases heq)
        exact ⟨rfl, rfl, by rw [dlookup_dinsert, if_pos rfl]⟩
  · intro st chat data hdef hnone
    have n1 : data ≠ "start" := startsWith_ne hdef (by decide)
    have n2 : data ≠ "help" := startsWith_ne hdef (by decide)
    have n3 : data ≠ "about" := startsWith_ne hdef (by decide)
    have n4 : data ≠ "settings" := startsWith_ne hdef (by decide)
    have n5 : data ≠ "close" := startsWith_ne hdef (by decide)
    simp only [handleCallback, if_neg n1, if_neg n2, if_neg n3, if_neg n4, if_neg n5,
      hdef, if_true, hnone]
  · intro st chat data url hdef hsome hne
    have n1 : data ≠ "start" := startsWith_ne hdef (by decide)
    have n2 : data ≠ "help" := startsWith_ne hdef (by decide)
    have n3 : data ≠ "about" := startsWith_ne hdef (by decide)
    have n4 : data ≠ "settings" := startsWith_ne hdef (by decide)
    have n5 : data ≠ "close" := startsWith_ne hdef (by decide)
    simp only [handleCallback, if_neg n1, if_neg n2, if_neg n3, if_neg n4, if_neg n5,
      hdef, if_true, hsome]
    rw [if_neg hne]
  · intro st chat data hren hnone
    have n1 : data ≠ "start" := startsWith_ne hren (by decide)
    have n2 : data ≠ "help" := startsWith_ne hren (by decide)
    have n3 : data ≠ "about" := startsWith_ne hren (by decide)
    have n4 : data ≠ "settings" := startsWith_ne hren (by decide)
    have n5 : data ≠ "close" := startsWith_ne hren (by decide)
    have nd : startsWithL "default|" data = false := startsWithL_excl (by decide) hren
    simp only [handleCallback, if_neg n1, if_neg n2, if_neg n3, if_neg n4, if_neg n5,
      nd, Bool.false_eq_true, if_false, hren, if_true, hnone]
  · intro st chat data url hren hsome hne
    have n1 : data ≠ "start" := startsWith_ne hren (by decide)
    have n2 : data ≠ "help" := startsWith_ne hren (by decide)
    have n3 : data ≠ "about" := startsWith_ne hren (by decide)
    have n4 : data ≠ "settings" := startsWith_ne hren (by decide)
    have n5 : data ≠ "close" := startsWith_ne hren (by decide)
    have nd : startsWithL "default|" data = false := startsWithL_excl (by decide) hren
    simp only [handleCallback, if_neg n1, if_neg n2, if_neg n3, if_neg n4, if_neg n5,
      nd, Bool.false_eq_true, if_false, hren, if_true, hsome]
    rw [if_neg hne]
    exact ⟨rfl, by rw [dlookup_dinsert, if_pos rfl]⟩
  · intro st chat data hcan
    have n1 : data ≠ "start" := startsWith_ne hcan (by decide)
    have n2 : data ≠ "help" := startsWith_ne hcan (by decide)
    have n3 : data ≠ "about" := startsWith_ne hcan (by decide)
    have n4 : data ≠ "settings" := startsWith_ne hcan (by decide)
    have n5 : data ≠ "close" := startsWith_ne hcan (by decide)
    have nd : startsWithL "default|" data = false := startsWithL_excl (by decide) hcan
    have nr : startsWithL "rename|" data = false := startsWithL_excl (by decide) hcan
    simp only [handleCallback, if_neg n1, if_neg n2, if_neg n3, if_neg n4, if_neg n5,
      nd, nr, Bool.false_eq_true, if_false, hcan, if_true]
    exact ⟨by trivial, by rw [dlookup_dpop, if_pos rfl]⟩
  · intro st chat data n1 n2 n3 n4 n5 nd nr nc
    simp only [handleCallback, if_neg n1, if_neg n2, if_neg n3, if_neg n4, if_neg n5,
      nd, nr, nc, Bool.false_eq_true, if_false]

/-- Witness for C5 at the sample state: the quick-download press on the
stored identifier runs the download of the stored URL. -/
theorem c5_download_choice_protocol_witness :
    (handleCallback sampleState 0 "default|k").2 = CbAction.quickDownload "http://a.b/c" :=
  c5_download_choice_protocol.2.2.1 sampleState 0 "default|k" "http://a.b/c"
    (by decide) (by decide) (by decide)

/-! ### Claim C6: the shape of accepted direct URLs -/

theorem litThen_starts {p : String} {cls : Char → Bool} {s : String}
    (h : litThen p cls s = true) : startsWithL p s = true := by
  unfold litThen at h
  rw [Bool.and_eq_true] at h
  exact h.1

theorem urlMatch_starts {s : String} (h : urlMatch s = true) :
    startsWithL "http://" s = true ∨ startsWithL "https://" s = true ∨
      startsWithL "www." s = true := by
  unfold urlMatch at h
  rw [Bool.or_eq_true, Bool.or_eq_true] at h
  rcases h with (h | h) | h
  · exact Or.inl (litThen_starts h)
  · exact Or.inr (Or.inl (litThen_starts h))
  · exact Or.inr (Or.inr (litThen_starts h))

/-- C6 counterexample: the text `www.example.com/file.zip` is routed to
the direct-download path although it does not begin with `http://` or
`https://`. -/
theorem c6_www_counterexample :
    msgRoute (handleMessage initState 0 "www.example.com/file.zip" "f" 0 false 0 0).2
      = some Route.direct ∧
    startsWithL "http://" "www.example.com/file.zip" = false ∧
    startsWithL "https://" "www.example.com/file.zip" = false := by
  refine ⟨rfl, by decide, by decide⟩

/-- C6 (amended): every message text routed to the direct-download path
matches the URL pattern and hence begins with `http://`, `https://` or
`www.`. -/
theorem c6_direct_url_shape (st : BotState) (chat : Nat) (t fid : String)
    (hs : Nat) (fe : Bool) (fidx fval : Nat)
    (h : msgRoute (handleMessage st chat t fid hs fe fidx fval).2 = some Route.direct) :
    startsWithL "http://" (pyStrip t) = true ∨
    startsWithL "https://" (pyStrip t) = true ∨
    startsWithL "www." (pyStrip t) = true := by
  have hurl : urlMatch (pyStrip t) = true := by
    revert h
    cases hre : dlookup chat st.pending_renames <;>
      simp only [handleMessage, hre] <;>
      (repeat' split) <;> intro h <;>
      first
        | assumption
        | exact absurd h (by simp [msgRoute])
  exact urlMatch_starts hurl

/-- Witness for C6 at the counterexample text: the accepted text begins
with one of the three prefixes. -/
theorem c6_direct_url_shape_witness :
    startsWithL "http://" (pyStrip "www.example.com/file.zip") = true ∨
    startsWithL "https://" (pyStrip "www.example.com/file.zip") = true ∨
    startsWithL "www." (pyStrip "www.example.com/file.zip") = true :=
  c6_direct_url_shape initState 0 "www.example.com/file.zip" "f" 0 false 0 0 (by rfl)

/-! ### Claims C9 and C10: the size limit and `humanbytes` -/

theorem roundHalfEven_close (num den : Nat) (hden : 0 < den) :
    ((roundHalfEven num den : Int) * den - num).natAbs * 2 ≤ den := by
  unfold roundHalfEven
  have h1 : den * (num / den) + num % den = num := Nat.div_add_mod num den
  have h2 : num % den < den := Nat.mod_lt _ hden
  have hnum : (num : Int) = (den : Int) * ((num / den : Nat) : Int)
      + ((num % den : Nat) : Int) := by
    exact_mod_cast h1.symm
  have eup : ((num / den + 1 : Nat) : Int) * (den : Int) - (num : Int)
      = (den : Int) - ((num % den : Nat) : Int) := by
    rw [hnum]
    push_cast
    ring
  have edown : ((num / den : Nat) : Int) * (den : Int) - (num : Int)
      = -(((num % den : Nat) : Int)) := by
    rw [hnum]
    push_cast
    ring
  split_ifs with ha hb hc
  · rw [eup]
    omega
  · rw [edown]
    omega
  · rw [edown]
    omega
  · rw [eup]
    omega

/-- For any oracle index of 9 or more, `size_name[i]` is past the
nine-entry tuple and the formatter returns no string (`IndexError` in the
source). -/
theorem humanbytes_idx_ge9 {fidx fval n : Nat} (hn : 0 < n) (h9 : 9 ≤ fidx) :
    humanbytes fidx fval n = none := by
  have hget : sizeName.get? fidx = none := by
    apply List.get?_eq_none.mpr
    simpa [sizeName] using h9
  simp only [humanbytes, if_neg (by omega : ¬ n = 0), hget]

/-- For any oracle index up to 8 the formatter returns the displayed value
with the unit at that index. -/
theorem humanbytes_idx_le8 {fidx fval n : Nat} (hn : 0 < n) (h8 : fidx ≤ 8) :
    humanbytes fidx fval n =
      some (fmtHundredths fval ++ " " ++ sizeName.getD fidx "") := by
  have hget : sizeName.get? fidx = some (sizeName.getD fidx "") := by
    interval_cases fidx <;> rfl
  simp only [humanbytes, if_neg (by omega : ¬ n = 0), hget]

/-- C10 counterexample: at `1024 ^ 9` bytes the double floor-logarithm of
the source yields unit index 9 (checked numerically), one past the
nine-entry unit tuple, so the source raises `IndexError` and returns no
string — while the claim prescribes a string with the unit at index 9,
which does not exist. -/
theorem c10_humanbytes_counterexample :
    humanbytes 9 0 (1024 ^ 9) = none ∧ 0 < 1024 ^ 9 :=
  ⟨humanbytes_idx_ge9 (by positivity) (le_refl 9), by positivity⟩

/-- C10 (amended): `humanbytes` returns `"0 B"` for size 0.  For a
positive size `n` the source computes the unit index
`i = int(math.floor(math.log(n, 1024)))` and the displayed value
`round(n / 1024 ** i, 2)` in IEEE doubles, which enter the embedding as
oracles: with `i ≤ 8` it returns the displayed value, a space, and the
unit at index `i`; with `i ≥ 9` — as the double computation verifiably
yields at `n = 1024 ^ 9`, where the original claim would need a tenth
unit — `size_name[i]` raises `IndexError` and no string is returned.
Whenever the double index agrees with the exact floor logarithm, the
unit satisfies `1024 ^ i ≤ n < 1024 ^ (i + 1)`, staying inside the tuple
for `n < 1024 ^ 9` and outside it from `1024 ^ 9` on; whenever the double
rounding agrees with exact half-to-even rounding, the displayed value is
within half a hundredth of `n / 1024 ^ i`. -/
theorem c10_humanbytes :
    (∀ fidx fval : Nat, humanbytes fidx fval 0 = some "0 B") ∧
    (∀ n fidx fval : Nat, 0 < n → fidx ≤ 8 →
      humanbytes fidx fval n =
        some (fmtHundredths fval ++ " " ++ sizeName.getD fidx "")) ∧
    (∀ n fidx fval : Nat, 0 < n → 9 ≤ fidx → humanbytes fidx fval n = none) ∧
    (∀ n fidx : Nat, 0 < n → fidx = Nat.log 1024 n →
      1024 ^ fidx ≤ n ∧ n < 1024 ^ (fidx + 1) ∧ (n < 1024 ^ 9 → fidx ≤ 8) ∧
      (1024 ^ 9 ≤ n → 9 ≤ fidx)) ∧
    (∀ n fidx fval : Nat, fval = roundHalfEven (100 * n) (1024 ^ fidx) →
      ((fval : Int) * ((1024 ^ fidx : Nat) : Int)
          - ((100 * n : Nat) : Int)).natAbs * 2 ≤ 1024 ^ fidx) := by
  refine ⟨fun fidx fval => rfl,
    fun n fidx fval hn h8 => humanbytes_idx_le8 hn h8,
    fun n fidx fval hn h9 => humanbytes_idx_ge9 hn h9, ?_, ?_⟩
  · intro n fidx hn hf
    subst hf
    have hlow : 1024 ^ Nat.log 1024 n ≤ n := Nat.pow_log_le_self 1024 (by omega)
    have hhigh : n < 1024 ^ (Nat.log 1024 n + 1) := by
      have := Nat.lt_pow_succ_log_self (by norm_num : (1:Nat) < 1024) n
      simpa [Nat.succ_eq_add_one] using this
    refine ⟨hlow, hhigh, ?_, ?_⟩
    · intro hlt
      have := Nat.log_lt_of_lt_pow (by omega : n ≠ 0) hlt
      omega
    · intro hge
      exact Nat.le_log_of_pow_le (by norm_num) hge
  · intro n fidx fval hf
    subst hf
    exact roundHalfEven_close _ _ (by positivity)

/-- Witness for C10 at 1536 bytes, where the double computation yields
index 1 and value 1.50 (checked numerically, and equal to the exact
references): one and a half kilobytes. -/
theorem c10_humanbytes_witness :
    humanbytes 1 150 1536 = some "1.5 KB" ∧
    1024 ^ 1 ≤ 1536 ∧ 1536 < 1024 ^ (1 + 1) := by
  have h2 := c10_humanbytes.2.1 1536 1 150 (by norm_num) (by norm_num)
  have hlog : (1 : Nat) = Nat.log 1024 1536 :=
    (Nat.log_eq_of_pow_le_of_lt_pow (by norm_num) (by norm_num)).symm
  have h4 := c10_humanbytes.2.2.2.1 1536 1 (by norm_num) hlog
  refine ⟨?_, h4.1, h4.2.1⟩
  rw [h2]
  rfl

/-- C9 counterexample: a direct-URL message whose reported content length
is `1024 ^ 9` (greater than 2GB) is not answered with the too-large
message: the double floor-logarithm of the size is 9 there (checked
numerically), `size_name[9]` raises `IndexError` inside the reply, and
the handler falls into the generic URL-error reply.  No entry is added
either way. -/
theorem c9_huge_header_counterexample :
    handleMessage initState 0 "http://example.com/file.bin" "f" (1024 ^ 9) false 9 0
      = (initState, MsgAction.urlError) ∧
    2 * 1024 * 1024 * 1024 < 1024 ^ 9 := by
  refine ⟨by decide, by norm_num⟩

/-- C9 (amended): for every direct-URL message whose HEAD request reports
a content length strictly greater than `2 * 1024 ^ 3` bytes,
`handle_message` returns with the state unchanged — no
`pending_downloads` entry, no download, no upload.  The reply is the
too-large message (maximum allowed size 2GB) showing the output of
`humanbytes(file_size)` whenever that call returns a string (double unit
index up to 8), and the generic URL-processing error reply whenever it
raises `IndexError` (index 9 or more, as the double computation
verifiably yields at content length `1024 ^ 9`). -/
theorem c9_size_limit (st : BotState) (chat : Nat) (t fid : String)
    (hs fidx fval : Nat)
    (hnr : dlookup chat st.pending_renames = none)
    (hnc : startsWithL "/" (pyStrip t) = false)
    (hyt : youtubeMatch (pyStrip t) = false)
    (hurl : urlMatch (pyStrip t) = true)
    (hbig : 2 * 1024 * 1024 * 1024 < hs) :
    (handleMessage st chat t fid hs false fidx fval).1 = st ∧
    (∀ shown, humanbytes fidx fval hs = some shown →
      (handleMessage st chat t fid hs false fidx fval).2
        = MsgAction.tooLarge hs shown) ∧
    (humanbytes fidx fval hs = none →
      (handleMessage st chat t fid hs false fidx fval).2 = MsgAction.urlError) ∧
    (fidx ≤ 8 →
      (handleMessage st chat t fid hs false fidx fval).2
        = MsgAction.tooLarge hs (fmtHundredths fval ++ " " ++ sizeName.getD fidx "")) ∧
    (9 ≤ fidx →
      (handleMessage st chat t fid hs false fidx fval).2 = MsgAction.urlError) := by
  have hcond : hs ≠ 0 ∧ 2 * 1024 * 1024 * 1024 < hs := ⟨by omega, hbig⟩
  cases hhb : humanbytes fidx fval hs with
  | none =>
      simp only [handleMessage, hnr, hnc, hyt, hurl, hhb, Bool.false_eq_true, if_false,
        eq_self_iff_true, if_true]
      rw [if_pos hcond]
      refine ⟨rfl, ?_, fun _ => rfl, ?_, fun _ => rfl⟩
      · intro shown hsome
        cases hsome
      · intro h8
        exfalso
        have hsome := @humanbytes_idx_le8 fidx fval hs (by omega) h8
        rw [hhb] at hsome
        cases hsome
  | some shown0 =>
      simp only [handleMessage, hnr, hnc, hyt, hurl, hhb, Bool.false_eq_true, if_false,
        eq_self_iff_true, if_true]
      rw [if_pos hcond]
      refine ⟨rfl, ?_, ?_, ?_, ?_⟩
      · intro shown hsome
        injection hsome with h
        rw [h]
      · intro hnone
        cases hnone
      · intro h8
        have hsome := @humanbytes_idx_le8 fidx fval hs (by omega) h8
        rw [hhb] at hsome
        injection hsome with h
        rw [h]
      · intro h9
        exfalso
        have hnone := @humanbytes_idx_ge9 fidx fval hs (by omega) h9
        rw [hhb] at hnone
        cases hnone

/-- Witness for C9 at a 3GB content length, where the double computation
yields index 3 and value 3.00 (checked numerically): the reply is the
too-large message showing `3.0 GB` and the state is unchanged. -/
theorem c9_size_limit_witness :
    (handleMessage initState 0 "http://example.com/file.bin" "f" (3 * 1024 ^ 3)
        false 3 300).1 = initState ∧
    (handleMessage initState 0 "http://example.com/file.bin" "f" (3 * 1024 ^ 3)
        false 3 300).2 = MsgAction.tooLarge (3 * 1024 ^ 3) "3.0 GB" := by
  have h := c9_size_limit initState 0 "http://example.com/file.bin" "f"
    (3 * 1024 ^ 3) 3 300 rfl (by decide) (by decide) (by decide) (by norm_num)
  refine ⟨h.1, ?_⟩
  have hact := h.2.2.2.1 (by norm_num)
  rw [hact]
  rfl

/-! ### Claims C2 and C7: the transfer pipeline -/

theorem mem_dlProgEvents {e : TEvent} {c : Nat} (h : e ∈ dlProgEvents c) :
    ∃ k, e = TEvent.dlProgress k := by
  simp only [dlProgEvents, List.mem_map] at h
  obtain ⟨k, _, hk⟩ := h
  exact ⟨k, hk.symm⟩

theorem mem_ulProgEvents {e : TEvent} {c : Nat} (h : e ∈ ulProgEvents c) :
    ∃ k, e = TEvent.ulProgress k := by
  simp only [ulProgEvents, List.mem_map] at h
  obtain ⟨k, _, hk⟩ := h
  exact ⟨k, hk.symm⟩

theorem dlProgress_mem {c : Nat} (h : 0 < c) :
    TEvent.dlProgress 0 ∈ dlProgEvents c := by
  simp only [dlProgEvents, List.mem_map]
  exact ⟨0, List.mem_range.mpr h, rfl⟩

theorem ulProgress_mem {c : Nat} (h : 0 < c) :
    TEvent.ulProgress 0 ∈ ulProgEvents c := by
  simp only [ulProgEvents, List.mem_map]
  exact ⟨0, List.mem_range.mpr h, rfl⟩

/-- A reporting event is neither a transfer-phase marker nor data
traffic. -/
theorem report_class {e : TEvent} (h : isReportEvent e = true) :
    isUploadEvent e = false ∧ isDownloadEvent e = false ∧
    isPreparingEvent e = false ∧ isDlStartEvent e = false ∧
    isUploadStartEvent e = false := by
  cases e <;> simp_all [isReportEvent, isUploadEvent, isDownloadEvent,
    isPreparingEvent, isDlStartEvent, isUploadStartEvent]

/-- The common shape of both download phases: the start marker, the chunk
progress updates, then only reporting events; a failed phase reports an
error. -/
theorem ytPhase_shape (y : YtOutcome) :
    ∃ tail, (ytPhase y).1 = TEvent.dlStart :: (dlProgEvents (ytChunks y) ++ tail) ∧
      (∀ e ∈ tail, isReportEvent e = true) ∧
      ((ytPhase y).2 = none → ∃ s, TEvent.errorShown s ∈ tail) ∧
      (∀ p, (ytPhase y).2 = some p → ∃ c, y = YtOutcome.ok p c) := by
  cases y with
  | ok p c =>
      refine ⟨[.noteShown ("Download Complete: " ++ p)], rfl, ?_, ?_, ?_⟩
      · simp [isReportEvent]
      · simp [ytPhase]
      · intro q hq
        simp only [ytPhase, Option.some.injEq] at hq
        exact ⟨c, by rw [hq]⟩
  | noInfo c =>
      refine ⟨[.errorShown "YouTube Download Failed: Unable to extract video info"],
        rfl, ?_, ?_, ?_⟩
      · simp [isReportEvent]
      · intro _
        exact ⟨"YouTube Download Failed: Unable to extract video info", by simp⟩
      · intro q hq
        simp [ytPhase] at hq
  | ytError m c =>
      refine ⟨[.logged ("YouTube Download Error: " ++ m), .errorShown (ytErrText m)],
        rfl, ?_, ?_, ?_⟩
      · simp [isReportEvent]
      · intro _
        exact ⟨ytErrText m, by simp⟩
      · intro q hq
        simp [ytPhase] at hq

theorem directPhase_shape (d : DlOutcome) :
    ∃ tail, (directPhase d).1 = TEvent.dlStart :: (dlProgEvents (dlChunks d) ++ tail) ∧
      (∀ e ∈ tail, isReportEvent e = true) ∧
      ((directPhase d).2 = none → ∃ s, TEvent.errorShown s ∈ tail) ∧
      (∀ p, (directPhase d).2 = some p → ∃ c, d = DlOutcome.ok p c) := by
  cases d with
  | ok p c =>
      refine ⟨[], by simp [directPhase, dlChunks, dlProgEvents], ?_, ?_, ?_⟩
      · simp
      · simp [directPhase]
      · intro q hq
        simp only [directPhase, Option.some.injEq] at hq
        exact ⟨c, by rw [hq]⟩
  | badStatus code =>
      refine ⟨[.errorShown ("Download Failed: HTTP " ++ toString code)], rfl, ?_, ?_, ?_⟩
      · simp [isReportEvent]
      · intro _
        exact ⟨"Download Failed: HTTP " ++ toString code, by simp⟩
      · intro q hq
        simp [directPhase] at hq
  | incomplete got want c =>
      refine ⟨[.errorShown ("Incomplete Download: " ++ toString got ++ "/" ++ toString want),
        .fileRemoved], rfl, ?_, ?_, ?_⟩
      · simp [isReportEvent]
      · intro _
        exact ⟨"Incomplete Download: " ++ toString got ++ "/" ++ toString want, by simp⟩
      · intro q hq
        simp [directPhase] at hq
  | netError m c =>
      refine ⟨[.logged ("Network Download Error: " ++ m), .errorShown ("Network Error: " ++ m)],
        rfl, ?_, ?_, ?_⟩
      · simp [isReportEvent]
      · intro _
        exact ⟨"Network Error: " ++ m, by simp⟩
      · intro q hq
        simp [directPhase] at hq
  | exn m c =>
      refine ⟨[.logged ("Direct Download Error: " ++ m), .errorShown ("Download Failed: " ++ m)],
        rfl, ?_, ?_, ?_⟩
      · simp [isReportEvent]
      · intro _
        exact ⟨"Download Failed: " ++ m, by simp⟩
      · intro q hq
        simp [directPhase] at hq

/-- The chosen download phase has the common shape, with the chunk count
of whichever oracle outcome runs. -/
theorem dlPhase_shape (url : String) (o : TransferOracle) :
    ∃ c tail, (dlPhase url o).1 = TEvent.dlStart :: (dlProgEvents c ++ tail) ∧
      (∀ e ∈ tail, isReportEvent e = true) ∧
      ((dlPhase url o).2 = none → ∃ s, TEvent.errorShown s ∈ tail) ∧
      (isYtUrl url = true → c = ytChunks o.yt ∧
        ∀ p, (dlPhase url o).2 = some p → ∃ k, o.yt = YtOutcome.ok p k) ∧
      (isYtUrl url = false → c = dlChunks o.direct ∧
        ∀ p, (dlPhase url o).2 = some p → ∃ k, o.direct = DlOutcome.ok p k) := by
  unfold dlPhase
  cases hyt : isYtUrl url with
  | true =>
      obtain ⟨tail, h1, h2, h3, h4⟩ := ytPhase_shape o.yt
      refine ⟨ytChunks o.yt, tail, ?_, h2, ?_, ?_, ?_⟩
      · simp [h1]
      · simpa using h3
      · intro _
        exact ⟨rfl, by simpa using h4⟩
      · intro h
        cases h
  | false =>
      obtain ⟨tail, h1, h2, h3, h4⟩ := directPhase_shape o.direct
      refine ⟨dlChunks o.direct, tail, ?_, h2, ?_, ?_, ?_⟩
      · simp [h1]
      · simpa using h3
      · intro h
        cases h
      · intro _
        exact ⟨rfl, by simpa using h4⟩

theorem countP_dlProgEvents (f : TEvent → Bool) (c : Nat)
    (hf : ∀ k, f (TEvent.dlProgress k) = false) :
    (dlProgEvents c).countP f = 0 :=
  List.countP_eq_zero.mpr (fun e he => by
    obtain ⟨k, rfl⟩ := mem_dlProgEvents he
    simp [hf k])

theorem countP_ulProgEvents (f : TEvent → Bool) (c : Nat)
    (hf : ∀ k, f (TEvent.ulProgress k) = false) :
    (ulProgEvents c).countP f = 0 :=
  List.countP_eq_zero.mpr (fun e he => by
    obtain ⟨k, rfl⟩ := mem_ulProgEvents he
    simp [hf k])

/-- Aggregate facts about the chosen download phase, extracted from the
shape lemma. -/
theorem dlPhase_counts (url : String) (o : TransferOracle) :
    (dlPhase url o).1.countP isPreparingEvent = 0 ∧
    (dlPhase url o).1.countP isDlStartEvent = 1 ∧
    (dlPhase url o).1.countP isUploadStartEvent = 0 ∧
    (∀ e ∈ (dlPhase url o).1, isUploadEvent e = false) := by
  obtain ⟨c, tail, hsh, htail, -, -, -⟩ := dlPhase_shape url o
  have htail0 : ∀ f : TEvent → Bool,
      (∀ e, isReportEvent e = true → f e = false) → tail.countP f = 0 :=
    fun f hf => List.countP_eq_zero.mpr (fun e he => by simp [hf e (htail e he)])
  rw [hsh]
  refine ⟨?_, ?_, ?_, ?_⟩
  · simp only [List.countP_cons, List.countP_append]
    rw [countP_dlProgEvents _ _ (fun k => rfl),
      htail0 _ (fun e he => (report_class he).2.2.1)]
    rfl
  · simp only [List.countP_cons, List.countP_append]
    rw [countP_dlProgEvents _ _ (fun k => rfl),
      htail0 _ (fun e he => (report_class he).2.2.2.1)]
    rfl
  · simp only [List.countP_cons, List.countP_append]
    rw [countP_dlProgEvents _ _ (fun k => rfl),
      htail0 _ (fun e he => (report_class he).2.2.2.2)]
    rfl
  · intro e he
    rcases List.mem_cons.mp he with rfl | he
    · rfl
    · rcases List.mem_append.mp he with he | he
      · obtain ⟨k, rfl⟩ := mem_dlProgEvents he
        rfl
      · exact (report_class (htail e he)).1

/-- The tail of the transfer after the download phase: one case analysis
shared by the pipeline claims. -/
theorem transfer_master (url : String) (o : TransferOracle) :
    ∃ T, (transfer url o).1 = TEvent.preparing :: ((dlPhase url o).1 ++ T) ∧
      (∀ e ∈ T, isDownloadEvent e = false) ∧
      (TEvent.uploadStart ∈ T → ∃ p, (dlPhase url o).2 = some p ∧ o.fileOnDisk = true) ∧
      (TEvent.uploadStart ∈ T → 0 < ulChunks o.upload → TEvent.ulProgress 0 ∈ T) ∧
      T.countP isPreparingEvent = 0 ∧
      T.countP isDlStartEvent = 0 ∧
      T.countP isUploadStartEvent ≤ 1 ∧
      ((transfer url o).2 = none → ∃ s, TEvent.errorShown s ∈ T) ∧
      (∀ p, (transfer url o).2 = some p ↔
        ((dlPhase url o).2 = some p ∧ o.fileOnDisk = true ∧
          ∃ k, o.upload = UlOutcome.ok k)) ∧
      (∀ p, (transfer url o).2 = some p →
        TEvent.uploaded (chooseUploadMethod p) p ∈ T) ∧
      (∀ m k, o.upload = UlOutcome.sendError m k → TEvent.uploadStart ∈ T →
        TEvent.logged ("File Send Error: " ++ m) ∈ T) := by
  cases hres : (dlPhase url o).2 with
  | none =>
      refine ⟨[.errorShown "Download Failed: Unable to download file"],
        ?_, ?_, ?_, ?_, rfl, rfl, ?_, ?_, ?_, ?_, ?_⟩
      · simp only [transfer, hres]
        rw [List.cons_append]
      · intro e he
        rcases List.mem_singleton.mp he with rfl
        rfl
      · intro h
        rcases List.mem_singleton.mp h with h
        cases h
      · intro h
        rcases List.mem_singleton.mp h with h
        cases h
      · simp [isUploadStartEvent]
      · intro _
        exact ⟨_, List.mem_singleton.mpr rfl⟩
      · intro p
        constructor
        · intro h
          simp only [transfer, hres] at h
          cases h
        · rintro ⟨hp, -, -⟩
          cases hp
      · intro p hp
        simp only [transfer, hres] at hp
        cases hp
      · intro m k _ h
        rcases List.mem_singleton.mp h with h
        cases h
  | some p =>
      cases hdisk : o.fileOnDisk with
      | false =>
          refine ⟨[.errorShown "Download Failed: Unable to download file"],
            ?_, ?_, ?_, ?_, rfl, rfl, ?_, ?_, ?_, ?_, ?_⟩
          · simp only [transfer, hres, hdisk, Bool.false_eq_true, if_false]
            rw [List.cons_append]
          · intro e he
            rcases List.mem_singleton.mp he with rfl
            rfl
          · intro h
            rcases List.mem_singleton.mp h with h
            cases h
          · intro h
            rcases List.mem_singleton.mp h with h
            cases h
          · simp [isUploadStartEvent]
          · intro _
            exact ⟨_, List.mem_singleton.mpr rfl⟩
          · intro q
            constructor
            · intro h
              simp only [transfer, hres, hdisk, Bool.false_eq_true, if_false] at h
              cases h
            · rintro ⟨-, hb, -⟩
              cases hb
          · intro q hq
            simp only [transfer, hres, hdisk, Bool.false_eq_true, if_false] at hq
            cases hq
          · intro m k _ h
            rcases List.mem_singleton.mp h with h
            cases h
      | true =>
          cases hup : o.upload with
          | ok k =>
              refine ⟨TEvent.uploadStart :: (ulProgEvents k ++
                  [.uploaded (chooseUploadMethod p) p, .progressDeleted, .fileRemoved]),
                ?_, ?_, ?_, ?_, ?_, ?_, ?_, ?_, ?_, ?_, ?_⟩
              · simp only [transfer, hres, hdisk, eq_self_iff_true, if_true, hup]
                simp [List.append_assoc]
              · intro e he
                rcases List.mem_cons.mp he with rfl | he
                · rfl
                · rcases List.mem_append.mp he with he | he
                  · obtain ⟨j, rfl⟩ := mem_ulProgEvents he
                    rfl
                  · simp only [List.mem_cons, List.not_mem_nil, or_false] at he
                    rcases he with rfl | rfl | rfl
                    · rfl
                    · rfl
                    · rfl
              · intro _
                exact ⟨p, rfl, rfl⟩
              · intro _ hk
                exact List.mem_cons_of_mem _ (List.mem_append.mpr (Or.inl (ulProgress_mem hk)))
              · simp only [List.countP_cons, List.countP_append]
                rw [countP_ulProgEvents _ _ (fun j => rfl)]
                rfl
              · simp only [List.countP_cons, List.countP_append]
                rw [countP_ulProgEvents _ _ (fun j => rfl)]
                rfl
              · simp only [List.countP_cons, List.countP_append]
                rw [countP_ulProgEvents _ _ (fun j => rfl)]
                simp [isUploadStartEvent]
              · intro h
                simp only [transfer, hres, hdisk, eq_self_iff_true, if_true, hup] at h
                cases h
              · intro q
                constructor
                · intro h
                  simp only [transfer, hres, hdisk, eq_self_iff_true, if_true, hup,
                    Option.some.injEq] at h
                  subst h
                  exact ⟨rfl, rfl, k, rfl⟩
                · rintro ⟨hq, -, -⟩
                  injection hq with hq
                  subst hq
                  simp only [transfer, hres, hdisk, eq_self_iff_true, if_true, hup]
              · intro q hq
                simp only [transfer, hres, hdisk, eq_self_iff_true, if_true, hup,
                  Option.some.injEq] at hq
                subst hq
                exact List.mem_cons_of_mem _ (List.mem_append.mpr (Or.inr (by simp)))
              · intro m j hj
                cases hj
          | sendError m k =>
              refine ⟨TEvent.uploadStart :: (ulProgEvents k ++
                  [.logged ("File Send Error: " ++ m),
                    .errorShown ("Upload Failed: " ++ m)]),
                ?_, ?_, ?_, ?_, ?_, ?_, ?_, ?_, ?_, ?_, ?_⟩
              · simp only [transfer, hres, hdisk, eq_self_iff_true, if_true, hup]
                simp [List.append_assoc]
              · intro e he
                rcases List.mem_cons.mp he with rfl | he
                · rfl
                · rcases List.mem_append.mp he with he | he
                  · obtain ⟨j, rfl⟩ := mem_ulProgEvents he
                    rfl
                  · simp only [List.mem_cons, List.not_mem_nil, or_false] at he
                    rcases he with rfl | rfl
                    · rfl
                    · rfl
              · intro _
                exact ⟨p, rfl, rfl⟩
              · intro _ hk
                exact List.mem_cons_of_mem _ (List.mem_append.mpr (Or.inl (ulProgress_mem hk)))
              · simp only [List.countP_cons, List.countP_append]
                rw [countP_ulProgEvents _ _ (fun j => rfl)]
                rfl
              · simp only [List.countP_cons, List.countP_append]
                rw [countP_ulProgEvents _ _ (fun j => rfl)]
                rfl
              · simp only [List.countP_cons, List.countP_append]
                rw [countP_ulProgEvents _ _ (fun j => rfl)]
                simp [isUploadStartEvent]
              · intro _
                refine ⟨"Upload Failed: " ++ m, ?_⟩
                exact List.mem_cons_of_mem _ (List.mem_append.mpr (Or.inr (by simp)))
              · intro q
                constructor
                · intro h
                  simp only [transfer, hres, hdisk, eq_self_iff_true, if_true, hup] at h
                  cases h
                · rintro ⟨-, -, j, hj⟩
                  cases hj
              · intro q hq
                simp only [transfer, hres, hdisk, eq_self_iff_true, if_true, hup] at hq
                cases hq
              · intro m2 j hj _
                injection hj with hm hj2
                subst hm
                exact List.mem_cons_of_mem _ (List.mem_append.mpr (Or.inr (by simp)))

/-- C2: every run of `handle_download_or_upload` is sequential: the trace
splits into a download part followed by an upload part; the upload begins
only when the download phase returned a path (a completed download, i.e.
the `ok` outcome of whichever engine ran) and the file exists on disk; and
chunk progress text is emitted during the download phase and, when the
upload runs, during the upload phase. -/
theorem c2_sequential_transfer (url : String) (o : TransferOracle) :
    (∃ pre post, (transfer url o).1 = pre ++ post ∧
      (∀ e ∈ pre, isUploadEvent e = false) ∧
      (∀ e ∈ post, isDownloadEvent e = false)) ∧
    (TEvent.uploadStart ∈ (transfer url o).1 →
      (∃ p, downloadResult url o = some p) ∧ o.fileOnDisk = true) ∧
    (isYtUrl url = true → TEvent.uploadStart ∈ (transfer url o).1 →
      ∃ p k, o.yt = YtOutcome.ok p k) ∧
    (isYtUrl url = false → TEvent.uploadStart ∈ (transfer url o).1 →
      ∃ p k, o.direct = DlOutcome.ok p k) ∧
    (isYtUrl url = true → 0 < ytChunks o.yt →
      ∃ k, TEvent.dlProgress k ∈ (transfer url o).1) ∧
    (isYtUrl url = false → 0 < dlChunks o.direct →
      ∃ k, TEvent.dlProgress k ∈ (transfer url o).1) ∧
    (TEvent.uploadStart ∈ (transfer url o).1 → 0 < ulChunks o.upload →
      ∃ k, TEvent.ulProgress k ∈ (transfer url o).1) := by
  obtain ⟨T, htr, hTnd, hTup, hTprog, -, -, -, -, -, -, -⟩ := transfer_master url o
  obtain ⟨c, tail, hsh, htail, herr, hytc, hdc⟩ := dlPhase_shape url o
  have hnoup : ∀ e ∈ (dlPhase url o).1, isUploadEvent e = false :=
    (dlPhase_counts url o).2.2.2
  have hupT : TEvent.uploadStart ∈ (transfer url o).1 → TEvent.uploadStart ∈ T := by
    intro h
    rw [htr] at h
    rcases List.mem_cons.mp h with h | h
    · cases h
    · rcases List.mem_append.mp h with h | h
      · have hcon := hnoup _ h
        simp [isUploadEvent] at hcon
      · exact h
  have hmemdl : ∀ e, e ∈ (dlPhase url o).1 → e ∈ (transfer url o).1 := by
    intro e he
    rw [htr]
    exact List.mem_cons_of_mem _ (List.mem_append.mpr (Or.inl he))
  have hmemT : ∀ e, e ∈ T → e ∈ (transfer url o).1 := by
    intro e he
    rw [htr]
    exact List.mem_cons_of_mem _ (List.mem_append.mpr (Or.inr he))
  refine ⟨?_, ?_, ?_, ?_, ?_, ?_, ?_⟩
  · refine ⟨TEvent.preparing :: (dlPhase url o).1, T, by rw [htr]; simp, ?_, hTnd⟩
    intro e he
    rcases List.mem_cons.mp he with rfl | he
    · rfl
    · exact hnoup e he
  · intro h
    obtain ⟨p, hp, hd⟩ := hTup (hupT h)
    exact ⟨⟨p, hp⟩, hd⟩
  · intro hy h
    obtain ⟨p, hp, -⟩ := hTup (hupT h)
    obtain ⟨-, hok⟩ := hytc hy
    obtain ⟨j, hj⟩ := hok p hp
    exact ⟨p, j, hj⟩
  · intro hy h
    obtain ⟨p, hp, -⟩ := hTup (hupT h)
    obtain ⟨-, hok⟩ := hdc hy
    obtain ⟨j, hj⟩ := hok p hp
    exact ⟨p, j, hj⟩
  · intro hy hpos
    refine ⟨0, hmemdl _ ?_⟩
    rw [hsh]
    refine List.mem_cons_of_mem _ (List.mem_append.mpr (Or.inl ?_))
    apply dlProgress_mem
    rw [(hytc hy).1]
    exact hpos
  · intro hy hpos
    refine ⟨0, hmemdl _ ?_⟩
    rw [hsh]
    refine List.mem_cons_of_mem _ (List.mem_append.mpr (Or.inl ?_))
    apply dlProgress_mem
    rw [(hdc hy).1]
    exact hpos
  · intro h hk
    exact ⟨0, hmemT _ (hTprog (hupT h) hk)⟩

/-- Witness for C2 at a successful direct transfer. -/
theorem c2_sequential_transfer_witness :
    TEvent.uploadStart ∈ (transfer "http://example.com/file.bin" okOracle).1 ∧
    okOracle.fileOnDisk = true :=
  ⟨by decide,
    ((c2_sequential_transfer "http://example.com/file.bin" okOracle).2.1 (by decide)).2⟩

/-- C7 counterexample: when the direct download fails with an HTTP status
code, an error string is shown and the result is `None`, but nothing is
logged: the claim that every failure is logged fails here. -/
theorem c7_no_log_counterexample :
    (transfer "http://example.com/file.bin" badStatusOracle).2 = none ∧
    (transfer "http://example.com/file.bin" badStatusOracle).1.countP isLoggedEvent
      = 0 ∧
    0 < (transfer "http://example.com/file.bin" badStatusOracle).1.countP
      isErrorShownEvent := by
  refine ⟨by decide, by decide, by decide⟩

/-- C7 (amended): on every failure of the pipeline an error string is
shown and the result is `None`; the run is single-shot (one preparation,
one download attempt, at most one upload attempt, so no retry); the
network-error and exception branches of the downloads and a failed send
additionally log the error, while the HTTP-status and incomplete-download
checks and the missing-extraction-info branch only show the message. -/
theorem c7_failure_handling (url : String) (o : TransferOracle) :
    ((transfer url o).2 = none ↔
      ¬((dlPhase url o).2 ≠ none ∧ o.fileOnDisk = true ∧
        ∃ k, o.upload = UlOutcome.ok k)) ∧
    ((transfer url o).2 = none → ∃ s, TEvent.errorShown s ∈ (transfer url o).1) ∧
    (transfer url o).1.countP isPreparingEvent = 1 ∧
    (transfer url o).1.countP isDlStartEvent = 1 ∧
    (transfer url o).1.countP isUploadStartEvent ≤ 1 ∧
    (isYtUrl url = false → ∀ m k, o.direct = DlOutcome.netError m k →
      TEvent.logged ("Network Download Error: " ++ m) ∈ (transfer url o).1) ∧
    (isYtUrl url = false → ∀ m k, o.direct = DlOutcome.exn m k →
      TEvent.logged ("Direct Download Error: " ++ m) ∈ (transfer url o).1) ∧
    (isYtUrl url = true → ∀ m k, o.yt = YtOutcome.ytError m k →
      TEvent.logged ("YouTube Download Error: " ++ m) ∈ (transfer url o).1) ∧
    (∀ m k, o.upload = UlOutcome.sendError m k →
      TEvent.uploadStart ∈ (transfer url o).1 →
      TEvent.logged ("File Send Error: " ++ m) ∈ (transfer url o).1) := by
  obtain ⟨T, htr, hTnd, hTup, hTprog, hc1, hc2, hc3, herrT, hiff, hupl, hsend⟩ :=
    transfer_master url o
  obtain ⟨hp1, hp2, hp3, hnoup⟩ := dlPhase_counts url o
  have hupT : TEvent.uploadStart ∈ (transfer url o).1 → TEvent.uploadStart ∈ T := by
    intro h
    rw [htr] at h
    rcases List.mem_cons.mp h with h | h
    · cases h
    · rcases List.mem_append.mp h with h | h
      · have hcon := hnoup _ h
        simp [isUploadEvent] at hcon
      · exact h
  have hmemdl : ∀ e, e ∈ (dlPhase url o).1 → e ∈ (transfer url o).1 := by
    intro e he
    rw [htr]
    exact List.mem_cons_of_mem _ (List.mem_append.mpr (Or.inl he))
  have hmemT : ∀ e, e ∈ T → e ∈ (transfer url o).1 := by
    intro e he
    rw [htr]
    exact List.mem_cons_of_mem _ (List.mem_append.mpr (Or.inr he))
  refine ⟨?_, ?_, ?_, ?_, ?_, ?_, ?_, ?_, ?_⟩
  · cases htr2 : (transfer url o).2 with
    | none =>
        refine ⟨fun _ => ?_, fun _ => rfl⟩
        rintro ⟨hne, hdisk, k, hok⟩
        obtain ⟨p, hp⟩ := Option.ne_none_iff_exists.mp hne
        have := (hiff p).mpr ⟨hp.symm, hdisk, k, hok⟩
        rw [htr2] at this
        cases this
    | some p =>
        obtain ⟨ha, hb, hc⟩ := (hiff p).mp htr2
        constructor
        · intro h
          cases h
        · intro h
          exact absurd ⟨(by rw [ha]; intro hx; cases hx), hb, hc⟩ h
  · intro h
    obtain ⟨s, hs⟩ := herrT h
    exact ⟨s, hmemT _ hs⟩
  · rw [htr]
    simp only [List.countP_cons, List.countP_append, hp1, hc1]
    rfl
  · rw [htr]
    simp only [List.countP_cons, List.countP_append, hp2, hc2]
    rfl
  · rw [htr]
    simp only [List.countP_cons, List.countP_append, hp3, isUploadStartEvent,
      Bool.false_eq_true, if_false]
    omega
  · intro hy m k hd
    apply hmemdl
    have hphase : dlPhase url o = directPhase o.direct := by
      unfold dlPhase
      rw [hy]
      simp
    rw [hphase, hd]
    simp [directPhase]
  · intro hy m k hd
    apply hmemdl
    have hphase : dlPhase url o = directPhase o.direct := by
      unfold dlPhase
      rw [hy]
      simp
    rw [hphase, hd]
    simp [directPhase]
  · intro hy m k hd
    apply hmemdl
    have hphase : dlPhase url o = ytPhase o.yt := by
      unfold dlPhase
      rw [hy]
      simp
    rw [hphase, hd]
    simp [ytPhase]
  · intro m k hm hup
    exact hmemT _ (hsend m k hm (hupT hup))

/-- Witness for C7 at the HTTP-status failure. -/
theorem c7_failure_handling_witness :
    (transfer "http://example.com/file.bin" badStatusOracle).2 = none ∧
    (∃ s, TEvent.errorShown s ∈ (transfer "http://example.com/file.bin" badStatusOracle).1) ∧
    (transfer "http://example.com/file.bin" badStatusOracle).1.countP isPreparingEvent
      = 1 := by
  have h := c7_failure_handling "http://example.com/file.bin" badStatusOracle
  refine ⟨h.1.mpr (fun hc => hc.1 (by decide)), h.2.1 (by decide), h.2.2.1⟩

/-! ### Claim C8: the thumbnail store -/

/-- C8: the modelled thumbnail store keeps one thumbnail per user with
set, get and delete, set overwrites, users are independent; and the
transfer pipeline sends every uploaded file with the method selected from
its extension, with every non-video non-audio extension going through the
thumbnail-applying generic document path. -/
theorem c8_thumbnail_store :
    (∀ (u : Nat) (f : String) (s : ThumbStore), getThumb u (setThumb u f s) = some f) ∧
    (∀ (u : Nat) (s : ThumbStore), getThumb u (delThumb u s) = none) ∧
    (∀ (u v : Nat) (f : String) (s : ThumbStore), u ≠ v →
      getThumb v (setThumb u f s) = getThumb v s) ∧
    (∀ (u v : Nat) (s : ThumbStore), u ≠ v →
      getThumb v (delThumb u s) = getThumb v s) ∧
    (∀ (u : Nat) (f g : String) (s : ThumbStore),
      getThumb u (setThumb u g (setThumb u f s)) = some g) ∧
    (∀ p : String, pyLower (splitextExt p) ∉ videoExts →
      pyLower (splitextExt p) ∉ audioExts →
      chooseUploadMethod p = UploadMethod.documentThumb) ∧
    (∀ (url : String) (o : TransferOracle) (p : String),
      (transfer url o).2 = some p →
      TEvent.uploaded (chooseUploadMethod p) p ∈ (transfer url o).1) := by
  refine ⟨?_, ?_, ?_, ?_, ?_, ?_, ?_⟩
  · intro u f s
    unfold getThumb setThumb
    rw [dlookup_dinsert, if_pos rfl]
  · intro u s
    unfold getThumb delThumb
    rw [dlookup_dpop, if_pos rfl]
  · intro u v f s huv
    unfold getThumb setThumb
    rw [dlookup_dinsert, if_neg huv]
  · intro u v s huv
    unfold getThumb delThumb
    rw [dlookup_dpop, if_neg (fun h => huv h.symm)]
  · intro u f g s
    unfold getThumb setThumb
    rw [dlookup_dinsert, if_pos rfl]
  · intro p h1 h2
    unfold chooseUploadMethod
    rw [if_neg h1, if_neg h2]
  · intro url o p hp
    obtain ⟨T, htr, -, -, -, -, -, -, -, -, hupl, -⟩ := transfer_master url o
    rw [htr]
    exact List.mem_cons_of_mem _ (List.mem_append.mpr (Or.inr (hupl p hp)))

/-- Witness for C8: set then get at a concrete user, the overwrite, and
the generic path for a PDF. -/
theorem c8_thumbnail_store_witness :
    getThumb 7 (setThumb 7 "thumb7.jpg" ⟨[]⟩) = some "thumb7.jpg" ∧
    getThumb 7 (delThumb 7 (setThumb 7 "thumb7.jpg" ⟨[]⟩)) = none ∧
    chooseUploadMethod "downloads/a.pdf" = UploadMethod.documentThumb :=
  ⟨c8_thumbnail_store.1 7 "thumb7.jpg" ⟨[]⟩,
    c8_thumbnail_store.2.1 7 (setThumb 7 "thumb7.jpg" ⟨[]⟩),
    c8_thumbnail_store.2.2.2.2.2.1 "downloads/a.pdf" (by decide) (by decide)⟩

end UrlUploader
